import Mathlib

set_option maxHeartbeats 1000000

namespace DataGpt

/-!
Shallow embedding of `static/js/chat.js` (both variants of the file).
JS strings are modelled as lists of UTF-16 code units (`List Nat`), byte
streams as lists of bytes (`List Nat`).
-/

/-- The code unit of `'\n'`. -/
def nlU : Nat := 10

/-- Model of JS `buffer.split('\n\n')` (chat.js line 60 / 260): splits a
code-unit string at the leftmost, non-overlapping occurrences of the
two-newline separator. -/
def splitNN : List Nat → List (List Nat)
  | c :: d :: rest =>
    if c = nlU ∧ d = nlU then
      [] :: splitNN rest
    else
      match splitNN (d :: rest) with
      | [] => [[c]]
      | p :: ps => (c :: p) :: ps
  | [c] => [[c]]
  | [] => [[]]

/-- Whether a code-unit string contains the record separator `"\n\n"`. -/
def hasNN : List Nat → Bool
  | c :: d :: rest => (c == nlU && d == nlU) || hasNN (d :: rest)
  | _ => false

theorem splitNN_ne_nil (s : List Nat) : splitNN s ≠ [] := by
  match s with
  | [] => simp [splitNN]
  | [c] => simp [splitNN]
  | c :: d :: rest =>
    rw [splitNN]
    split
    · simp
    · split <;> simp

theorem splitNN_eq_single (s p : List Nat) (h : splitNN s = [p]) : p = s := by
  induction s using splitNN.induct generalizing p with
  | case1 c d rest hcd ih =>
    rw [splitNN, if_pos hcd] at h
    have hr : splitNN rest = [] := by
      cases hr : splitNN rest with
      | nil => rfl
      | cons q qs => rw [hr] at h; simp at h
    exact absurd hr (splitNN_ne_nil rest)
  | case2 c d rest hcd hnil ih =>
    exact absurd hnil (splitNN_ne_nil (d :: rest))
  | case3 c d rest hcd q qs hin ih =>
    have hs : splitNN (c :: d :: rest) = (c :: q) :: qs := by
      rw [splitNN, if_neg hcd, hin]
    rw [hs] at h
    cases qs with
    | nil =>
      cases h
      have := ih q hin
      simp [this]
    | cons r rs => simp at h
  | case4 c =>
    rw [splitNN] at h
    cases h; rfl
  | case5 =>
    rw [splitNN] at h
    cases h; rfl

theorem splitNN_append (s t : List Nat) :
    splitNN (s ++ t) =
      (splitNN s).dropLast ++ splitNN ((splitNN s).getLastD [] ++ t) := by
  induction s using splitNN.induct with
  | case1 c d rest hcd ih =>
    have h1 : splitNN (c :: d :: rest) = [] :: splitNN rest := by
      rw [splitNN, if_pos hcd]
    have h2 : splitNN (c :: d :: rest ++ t) = [] :: splitNN (rest ++ t) := by
      rw [show c :: d :: rest ++ t = c :: d :: (rest ++ t) by simp, splitNN, if_pos hcd]
    obtain ⟨q, qs, hq⟩ : ∃ q qs, splitNN rest = q :: qs := by
      cases hr : splitNN rest with
      | nil => exact absurd hr (splitNN_ne_nil rest)
      | cons q qs => exact ⟨q, qs, rfl⟩
    rw [h1, h2, ih, hq]
    simp [List.dropLast, List.getLastD]
  | case2 c d rest hcd hnil ih =>
    exact absurd hnil (splitNN_ne_nil (d :: rest))
  | case3 c d rest hcd p ps hin ih =>
    have hs : splitNN (c :: d :: rest) = (c :: p) :: ps := by
      rw [splitNN, if_neg hcd, hin]
    have hl : splitNN (c :: d :: rest ++ t) =
        match splitNN (d :: (rest ++ t)) with
        | [] => [[c]]
        | q :: qs => (c :: q) :: qs := by
      rw [show c :: d :: rest ++ t = c :: d :: (rest ++ t) by simp, splitNN, if_neg hcd]
    have hih : splitNN (d :: (rest ++ t)) =
        (p :: ps).dropLast ++ splitNN ((p :: ps).getLastD [] ++ t) := by
      have h0 := ih
      rw [show (d :: rest) ++ t = d :: (rest ++ t) by simp, hin] at h0
      exact h0
    cases ps with
    | nil =>
      have hp : p = d :: rest := splitNN_eq_single _ _ hin
      subst hp
      rw [hs]
      simp
    | cons p2 ps' =>
      rw [hl, hih, hs]
      have hd : (p :: p2 :: ps').dropLast = p :: (p2 :: ps').dropLast := rfl
      have hg : (p :: p2 :: ps').getLastD ([] : List Nat) = (p2 :: ps').getLastD [] := by
        simp [List.getLastD]
      rw [hd, hg]
      have hd2 : ((c :: p) :: p2 :: ps').dropLast = (c :: p) :: (p2 :: ps').dropLast := rfl
      have hg2 : ((c :: p) :: p2 :: ps').getLastD ([] : List Nat) = (p2 :: ps').getLastD [] := by
        simp [List.getLastD]
      rw [hd2, hg2]
      simp
  | case4 c =>
    rw [show [c] ++ t = c :: t by simp, splitNN]
    simp [List.dropLast, List.getLastD]
  | case5 =>
    rw [show ([] : List Nat) ++ t = t by simp, splitNN]
    simp [List.dropLast, List.getLastD]

theorem splitNN_of_not_hasNN (s : List Nat) (h : hasNN s = false) : splitNN s = [s] := by
  induction s using splitNN.induct with
  | case1 c d rest hcd ih =>
    exfalso
    rw [hasNN] at h
    simp [hcd.1, hcd.2, nlU] at h
  | case2 c d rest hcd hnil ih =>
    exact absurd hnil (splitNN_ne_nil (d :: rest))
  | case3 c d rest hcd p ps hin ih =>
    rw [hasNN] at h
    have h2 : hasNN (d :: rest) = false := by
      cases hh : hasNN (d :: rest) <;> simp [hh] at h ⊢
    have := ih h2
    rw [hin] at this
    cases this
    rw [splitNN, if_neg hcd, hin]
  | case4 c => rw [splitNN]
  | case5 => rw [splitNN]

/-- A separator-free record not ending in a newline, followed by the
separator, splits into exactly that record plus an empty remainder. -/
theorem splitNN_record_sep (r : List Nat) (h1 : hasNN r = false)
    (h2 : r.getLast? ≠ some nlU) :
    splitNN (r ++ [nlU, nlU]) = [r, []] := by
  induction r with
  | nil => simp [splitNN, nlU]
  | cons c rest ih =>
    cases rest with
    | nil =>
      have hc : c ≠ nlU := by
        simp [List.getLast?] at h2
        exact h2
      show splitNN (c :: nlU :: [nlU]) = [[c], []]
      rw [splitNN, if_neg (by simp [hc]), show ([nlU] : List Nat) = nlU :: [] from rfl,
        splitNN, if_pos ⟨rfl, rfl⟩, splitNN]
    | cons d rest' =>
      have hnn : hasNN (d :: rest') = false := by
        rw [hasNN] at h1
        cases hh : hasNN (d :: rest') <;> simp [hh] at h1 ⊢
      have hlast : (d :: rest').getLast? ≠ some nlU := by
        simpa [List.getLast?_cons_cons] using h2
      have hcd : ¬(c = nlU ∧ d = nlU) := by
        intro hand
        rw [hasNN] at h1
        simp [hand.1, hand.2] at h1
      have := ih hnn hlast
      show splitNN (c :: (d :: rest' ++ [nlU, nlU])) = [c :: d :: rest', []]
      rw [show c :: (d :: rest' ++ [nlU, nlU]) = c :: d :: (rest' ++ [nlU, nlU]) by simp,
        splitNN, if_neg hcd]
      rw [show d :: (rest' ++ [nlU, nlU]) = (d :: rest') ++ [nlU, nlU] by simp, this]

/-!
## Incremental UTF-8 text decoder

`new TextDecoder()` / `decoder.decode(value, { stream: true })`
(chat.js lines 50/57 and 251/259) is the WHATWG UTF-8 decoder: a
byte-at-a-time state machine that emits Unicode code points, replaces
errors with U+FFFD, and (since `ignoreBOM` defaults to false) skips a
U+FEFF appearing as the very first code point of the stream.  The emitted
code points form a JS string, i.e. UTF-16 code units.
-/

/-- Inner state of the WHATWG UTF-8 decode state machine. -/
structure Utf8State where
  codePoint : Nat
  bytesNeeded : Nat
  bytesSeen : Nat
  lower : Nat
  upper : Nat
deriving Repr, DecidableEq

def utf8Init : Utf8State := ⟨0, 0, 0, 0x80, 0xBF⟩

/-- One byte in the `bytesNeeded = 0` state: returns the next state and the
emitted code points. -/
def utf8StartByte (b : Nat) : Utf8State × List Nat :=
  if b ≤ 0x7F then (utf8Init, [b])
  else if 0xC2 ≤ b ∧ b ≤ 0xDF then
    (⟨b % 32, 1, 0, 0x80, 0xBF⟩, [])
  else if 0xE0 ≤ b ∧ b ≤ 0xEF then
    let lo := if b = 0xE0 then 0xA0 else 0x80
    let hi := if b = 0xED then 0x9F else 0xBF
    (⟨b % 16, 2, 0, lo, hi⟩, [])
  else if 0xF0 ≤ b ∧ b ≤ 0xF4 then
    let lo := if b = 0xF0 then 0x90 else 0x80
    let hi := if b = 0xF4 then 0x8F else 0xBF
    (⟨b % 8, 3, 0, lo, hi⟩, [])
  else (utf8Init, [0xFFFD])

/-- One byte of the UTF-8 state machine.  On a continuation byte outside the
expected range the state resets, U+FFFD is emitted and the byte is
reprocessed as a start byte (the WHATWG "prepend byte to stream" rule). -/
def utf8Byte (st : Utf8State) (b : Nat) : Utf8State × List Nat :=
  if st.bytesNeeded = 0 then utf8StartByte b
  else if st.lower ≤ b ∧ b ≤ st.upper then
    let cp := st.codePoint * 64 + b % 64
    if st.bytesSeen + 1 = st.bytesNeeded then (utf8Init, [cp])
    else (⟨cp, st.bytesNeeded, st.bytesSeen + 1, 0x80, 0xBF⟩, [])
  else
    let r := utf8StartByte b
    (r.1, 0xFFFD :: r.2)

/-- A code point as UTF-16 code units (astral code points become a
surrogate pair, as in a JS string). -/
def cpToUtf16 (cp : Nat) : List Nat :=
  if cp < 0x10000 then [cp]
  else [0xD800 + (cp - 0x10000) / 0x400, 0xDC00 + (cp - 0x10000) % 0x400]

/-- BOM handling of `TextDecoder` (`ignoreBOM` unset): a U+FEFF that is the
first code point of the whole stream is skipped; the flag is set once the
first code point has been seen. -/
def emitUnits : Bool → List Nat → Bool × List Nat
  | seen, [] => (seen, [])
  | seen, cp :: rest =>
    let tail := emitUnits true rest
    if seen = false ∧ cp = 0xFEFF then (tail.1, tail.2)
    else (tail.1, cpToUtf16 cp ++ tail.2)

/-- Full decoder state: UTF-8 machine state plus the BOM-seen flag. -/
structure DecState where
  u : Utf8State
  bomSeen : Bool
deriving Repr, DecidableEq

def decInit : DecState := ⟨utf8Init, false⟩

/-- Decode one byte: new decoder state and emitted UTF-16 code units. -/
def decByte (st : DecState) (b : Nat) : DecState × List Nat :=
  let r := utf8Byte st.u b
  let e := emitUnits st.bomSeen r.2
  (⟨r.1, e.1⟩, e.2)

/-- `decoder.decode(chunk, { stream: true })`: decode a whole byte chunk,
one byte at a time.  Bytes of an incomplete sequence stay in the state. -/
def decodeBytes (st : DecState) : List Nat → DecState × List Nat
  | [] => (st, [])
  | b :: bs =>
    let r := decByte st b
    let r2 := decodeBytes r.1 bs
    (r2.1, r.2 ++ r2.2)

theorem decodeBytes_append (st : DecState) (xs ys : List Nat) :
    decodeBytes st (xs ++ ys) =
      ((decodeBytes (decodeBytes st xs).1 ys).1,
       (decodeBytes st xs).2 ++ (decodeBytes (decodeBytes st xs).1 ys).2) := by
  induction xs generalizing st with
  | nil => simp [decodeBytes]
  | cons b bs ih =>
    simp only [List.cons_append, decodeBytes, List.append_eq]
    rw [ih]
    simp [List.append_assoc]

/-!
## JSON values and `JSON.parse`

`JSON.parse(part.substring(5))` (chat.js line 66 / 266) is modelled by a
recursive-descent parser over the code units of the JS string, following
the JSON grammar accepted by `JSON.parse` (ECMA-404): optional
whitespace, values `null`/`true`/`false`, numbers, strings with escapes
(including `\uXXXX`, lone surrogates allowed), arrays and objects.
Numbers are kept exactly as `mantissa * 10 ^ exp10`; the rounding of the
resulting JS float64 is not modelled (no claim depends on it).  Duplicate
object keys keep the last occurrence, as in JS property assignment.
-/

/-- Code units of a Lean string literal (all literals used are in the
Basic Multilingual Plane, where code unit = code point). -/
def su (s : String) : List Nat := s.toList.map Char.toNat

inductive Json where
  | null
  | bool (b : Bool)
  | num (mantissa : Int) (exp10 : Int)
  | str (s : List Nat)
  | arr (items : List Json)
  | obj (fields : List (List Nat × Json))

/-- JSON whitespace (space, tab, line feed, carriage return). -/
def isJsonWS (c : Nat) : Bool := c = 0x20 || c = 0x09 || c = 0x0A || c = 0x0D

def skipWS : List Nat → List Nat
  | c :: rest => if isJsonWS c then skipWS rest else c :: rest
  | [] => []

def hexVal (c : Nat) : Option Nat :=
  if 0x30 ≤ c ∧ c ≤ 0x39 then some (c - 0x30)
  else if 0x41 ≤ c ∧ c ≤ 0x46 then some (c - 0x41 + 10)
  else if 0x61 ≤ c ∧ c ≤ 0x66 then some (c - 0x61 + 10)
  else none

/-- Single-character JSON string escapes. -/
def escChar (e : Nat) : Option Nat :=
  if e = 0x22 then some 0x22
  else if e = 0x5C then some 0x5C
  else if e = 0x2F then some 0x2F
  else if e = 0x62 then some 0x08
  else if e = 0x66 then some 0x0C
  else if e = 0x6E then some 0x0A
  else if e = 0x72 then some 0x0D
  else if e = 0x74 then some 0x09
  else none

/-- Body of a JSON string after the opening quote: the decoded code units
and the remainder after the closing quote. -/
def parseStrBody : List Nat → Option (List Nat × List Nat)
  | [] => none
  | c :: rest =>
    if c = 0x22 then some ([], rest)
    else if c = 0x5C then
      match rest with
      | [] => none
      | e :: r2 =>
        if e = 0x75 then
          match r2 with
          | h1 :: h2 :: h3 :: h4 :: r3 =>
            match hexVal h1, hexVal h2, hexVal h3, hexVal h4 with
            | some a, some b2, some c2, some d2 =>
              (parseStrBody r3).map
                (fun p => ((((a * 16 + b2) * 16 + c2) * 16 + d2) :: p.1, p.2))
            | _, _, _, _ => none
          | _ => none
        else
          match escChar e with
          | some u => (parseStrBody r2).map (fun p => (u :: p.1, p.2))
          | none => none
    else if 0x20 ≤ c then (parseStrBody rest).map (fun p => (c :: p.1, p.2))
    else none

/-- Longest prefix of decimal digits, and the remainder. -/
def takeDigits : List Nat → List Nat × List Nat
  | c :: rest =>
    if 0x30 ≤ c ∧ c ≤ 0x39 then
      let p := takeDigits rest
      (c :: p.1, p.2)
    else ([], c :: rest)
  | [] => ([], [])

def digitsToNat (ds : List Nat) : Nat := ds.foldl (fun a c => a * 10 + (c - 0x30)) 0

/-- Integer part of a JSON number: `0` alone or a nonzero digit followed by
digits (leading zeros are a syntax error, as for `JSON.parse`). -/
def parseIntDigits : List Nat → Option (List Nat × List Nat)
  | c :: rest =>
    if c = 0x30 then some ([c], rest)
    else if 0x31 ≤ c ∧ c ≤ 0x39 then
      let p := takeDigits rest
      some (c :: p.1, p.2)
    else none
  | [] => none

/-- Optional fraction part: digits after a dot (at least one required). -/
def parseFrac : List Nat → Option (List Nat × List Nat)
  | 0x2E :: r =>
    match takeDigits r with
    | ([], _) => none
    | (ds, r2) => some (ds, r2)
  | s => some ([], s)

/-- Optional exponent part of a JSON number. -/
def parseExpPart : List Nat → Option (Int × List Nat)
  | c :: r =>
    if c = 0x65 ∨ c = 0x45 then
      let sr : Bool × List Nat :=
        match r with
        | 0x2B :: r2 => (false, r2)
        | 0x2D :: r2 => (true, r2)
        | _ => (false, r)
      match takeDigits sr.2 with
      | ([], _) => none
      | (ds, r2) =>
        let v : Int := digitsToNat ds
        some (if sr.1 then -v else v, r2)
    else some (0, c :: r)
  | [] => some (0, [])

/-- A JSON number literal, as exact mantissa and power of ten. -/
def parseNum (s : List Nat) : Option (Json × List Nat) :=
  let sgn : Bool × List Nat :=
    match s with
    | 0x2D :: r => (true, r)
    | _ => (false, s)
  match parseIntDigits sgn.2 with
  | none => none
  | some (ids, r1) =>
    match parseFrac r1 with
    | none => none
    | some (fds, r2) =>
      match parseExpPart r2 with
      | none => none
      | some (ex, r3) =>
        let mag : Nat := digitsToNat (ids ++ fds)
        let m : Int := if sgn.1 then -(mag : Int) else (mag : Int)
        some (Json.num m (ex - (fds.length : Int)), r3)

mutual

/-- A JSON value (with leading whitespace), fuelled; fuel only limits the
recursion depth and is chosen large enough at the top level. -/
def parseVal : Nat → List Nat → Option (Json × List Nat)
  | 0, _ => none
  | fuel + 1, input =>
    match skipWS input with
    | [] => none
    | c :: rest =>
      if c = 0x6E then
        if rest.take 3 = [0x75, 0x6C, 0x6C] then some (Json.null, rest.drop 3) else none
      else if c = 0x74 then
        if rest.take 3 = [0x72, 0x75, 0x65] then some (Json.bool true, rest.drop 3) else none
      else if c = 0x66 then
        if rest.take 4 = [0x61, 0x6C, 0x73, 0x65] then some (Json.bool false, rest.drop 4) else none
      else if c = 0x22 then
        match parseStrBody rest with
        | some (s, r) => some (Json.str s, r)
        | none => none
      else if c = 0x5B then
        match skipWS rest with
        | 0x5D :: r2 => some (Json.arr [], r2)
        | r1 =>
          match parseArrItems fuel r1 with
          | some (vs, r2) => some (Json.arr vs, r2)
          | none => none
      else if c = 0x7B then
        match skipWS rest with
        | 0x7D :: r2 => some (Json.obj [], r2)
        | r1 =>
          match parseObjMembers fuel r1 with
          | some (ms, r2) => some (Json.obj ms, r2)
          | none => none
      else if (0x30 ≤ c ∧ c ≤ 0x39) ∨ c = 0x2D then
        parseNum (c :: rest)
      else none

/-- Comma-separated array elements up to the closing bracket. -/
def parseArrItems : Nat → List Nat → Option (List Json × List Nat)
  | 0, _ => none
  | fuel + 1, input =>
    match parseVal fuel input with
    | none => none
    | some (v, r) =>
      match skipWS r with
      | 0x2C :: r2 =>
        match parseArrItems fuel r2 with
        | some (vs, r3) => some (v :: vs, r3)
        | none => none
      | 0x5D :: r2 => some ([v], r2)
      | _ => none

/-- Comma-separated `"key" : value` members up to the closing brace. -/
def parseObjMembers : Nat → List Nat → Option (List (List Nat × Json) × List Nat)
  | 0, _ => none
  | fuel + 1, input =>
    match skipWS input with
    | 0x22 :: r =>
      match parseStrBody r with
      | some (k, r1) =>
        match skipWS r1 with
        | 0x3A :: r2 =>
          match parseVal fuel r2 with
          | some (v, r3) =>
            match skipWS r3 with
            | 0x2C :: r4 =>
              match parseObjMembers fuel r4 with
              | some (ms, r5) => some ((k, v) :: ms, r5)
              | none => none
            | 0x7D :: r4 => some ([(k, v)], r4)
            | _ => none
          | none => none
        | _ => none
      | none => none
    | _ => none

end

/-- `JSON.parse` on a JS string: a single JSON value with optional
surrounding whitespace and nothing else; `none` models the thrown
`SyntaxError`. -/
def parseJson (s : List Nat) : Option Json :=
  match parseVal (2 * s.length + 2) s with
  | some (v, rest) => if skipWS rest = [] then some v else none
  | none => none

/-- Reading a property of a JS object built by `JSON.parse`: later
duplicate keys overwrite earlier ones, a missing key is `undefined`
(here `none`). -/
def getOwnField (fields : List (List Nat × Json)) (key : List Nat) : Option Json :=
  fields.foldl (fun acc kv => if kv.1 = key then some kv.2 else acc) none

/-- `data.text`-style property access: only objects have own fields;
on any other value the properties read by chat.js are `undefined`. -/
def jsGet (v : Json) (key : List Nat) : Option Json :=
  match v with
  | Json.obj fs => getOwnField fs key
  | _ => none

/-- JS truthiness of a JSON-derived value (`if (data.text)`):
`false`, `0`, `""` and `null` are falsy. -/
def jsTruthy : Json → Bool
  | Json.null => false
  | Json.bool b => b
  | Json.num m _ => m != 0
  | Json.str s => !s.isEmpty
  | Json.arr _ => true
  | Json.obj _ => true

/-- Simplified decimal rendering of a JSON number (exact value, not the
float64 shortest-round-trip format of JS; no claim depends on the exact
digits of a stringified number). -/
def numToUnits (m : Int) (e : Int) : List Nat :=
  let mp := (if m < 0 then su "-" else []) ++ (Nat.toDigits 10 m.natAbs).map Char.toNat
  if e = 0 then mp
  else
    mp ++ su "e" ++ (if e < 0 then su "-" else []) ++ (Nat.toDigits 10 e.natAbs).map Char.toNat

mutual

/-- JS `ToString` of a JSON-derived value, as used by the implicit
coercions of `innerHTML += data.text` and template literals. -/
def jsToString : Json → List Nat
  | Json.null => su "null"
  | Json.bool true => su "true"
  | Json.bool false => su "false"
  | Json.num m e => numToUnits m e
  | Json.str s => s
  | Json.arr items => jsToStringItems items
  | Json.obj _ => su "[object Object]"

/-- `Array.prototype.toString`: elements joined with commas, with `null`
rendered as the empty string. -/
def jsToStringItems : List Json → List Nat
  | [] => []
  | v :: vs =>
    let hd :=
      match v with
      | Json.null => []
      | w => jsToString w
    match vs with
    | [] => hd
    | _ :: _ => hd ++ 0x2C :: jsToStringItems vs

end

/-!
## The streamed-response reader (`handleStreamedResponse`)

Both chat.js variants run the same loop (lines 53-76 and 255-275):

    buffer += decoder.decode(value, { stream: true });
    const parts = buffer.split('\n\n');
    buffer = parts.pop();
    for (const part of parts)
      if (part.startsWith('data:'))
        try { const data = JSON.parse(part.substring(5));
              if (data.text) { <emit data.text> } }
        catch (e) { console.error(...); }

On `done` the loop breaks and whatever is left in `buffer` (and in the
decoder) is dropped.  The direct variant emits by
`botMessageElement.innerHTML += data.text`; the typewriter variant by
`fullText += data.text`.
-/

def dataTagU : List Nat := su "data:"

def textKeyU : List Nat := su "text"

/-- Processing of one complete record (the body of the `for` loop): the
emitted `data.text` value, if any.  Records without the `data:` tag are
skipped; a `JSON.parse` failure is caught and the record dropped; a falsy
`data.text` (absent, `false`, `0`, `""`, `null`) emits nothing. -/
def recordFragment (part : List Nat) : Option Json :=
  if dataTagU.isPrefixOf part then
    match parseJson (part.drop 5) with
    | some v =>
      match jsGet v textKeyU with
      | some t => if jsTruthy t then some t else none
      | none => none
    | none => none
  else none

/-- One pass of the SSE buffer logic over freshly decoded text: split the
extended buffer on `"\n\n"`, pop the last piece back into the buffer,
and emit the fragments of the complete records, in order. -/
def sseStep (buffer text : List Nat) : List Nat × List Json :=
  let parts := splitNN (buffer ++ text)
  (parts.getLastD [], parts.dropLast.filterMap recordFragment)

/-- Concatenation of the stringified fragments, in emission order (what a
sequence of `+= data.text` appends amounts to). -/
def renderFrags (fs : List Json) : List Nat := (fs.map jsToString).flatten

/-- State of the direct (streaming) variant of `handleStreamedResponse`:
decoder state, carry-over buffer, the accumulated `innerHTML` of the bot
message element, and the emitted fragments (the observation trace). -/
structure StreamStateV1 where
  dec : DecState
  buffer : List Nat
  content : List Nat
  frags : List Json

def streamInitV1 : StreamStateV1 := ⟨decInit, [], [], []⟩

/-- One iteration of the direct variant's read loop on a received chunk. -/
def handleChunkV1 (st : StreamStateV1) (chunk : List Nat) : StreamStateV1 :=
  let d := decodeBytes st.dec chunk
  let s := sseStep st.buffer d.2
  ⟨d.1, s.1, st.content ++ renderFrags s.2, st.frags ++ s.2⟩

/-- The direct variant of `handleStreamedResponse` (chat.js lines 48-77)
over a byte-chunk sequence ending with `done`. -/
def handleStreamedResponseV1 (chunks : List (List Nat)) : StreamStateV1 :=
  chunks.foldl handleChunkV1 streamInitV1

/-- State of the typewriter variant: decoder state, carry-over buffer, and
the accumulated `fullText`. -/
structure StreamStateV2 where
  dec : DecState
  buffer : List Nat
  fullText : List Nat

def streamInitV2 : StreamStateV2 := ⟨decInit, [], []⟩

/-- One iteration of the typewriter variant's read loop (chat.js lines
255-275): identical to the direct variant except that fragments are
accumulated into `fullText` instead of the DOM. -/
def handleChunkV2 (st : StreamStateV2) (chunk : List Nat) : StreamStateV2 :=
  let d := decodeBytes st.dec chunk
  let s := sseStep st.buffer d.2
  ⟨d.1, s.1, st.fullText ++ renderFrags s.2⟩

/-- The typewriter variant of `handleStreamedResponse` (chat.js lines
249-278) up to the end of the read loop (before the final
`typewriterEffect` call). -/
def handleStreamedResponseV2 (chunks : List (List Nat)) : StreamStateV2 :=
  chunks.foldl handleChunkV2 streamInitV2

/-!
## The typewriter reveal (`typewriterEffect`, chat.js lines 203-220)

`element.innerHTML = ""` then `type()`: while `i < text.length` the
single code unit `text.charAt(i)` is appended and the next step is
scheduled; once `i` reaches `text.length` the promise resolves.
-/

/-- The sequence of single-character increments performed by the `type`
recursion starting at position `i`. -/
def typewriterSteps (text : List Nat) (i : Nat) : List (List Nat) :=
  if h : i < text.length then [text.get ⟨i, h⟩] :: typewriterSteps text (i + 1) else []
termination_by text.length - i

/-- Content of the target element once `typewriterEffect` resolves: the
previous content `prev` is cleared (`element.innerHTML = ""`), then every
increment is appended. -/
def typewriterFinal (prev text : List Nat) : List Nat :=
  let _ := prev
  (typewriterSteps text 0).foldl (fun acc e => acc ++ e) []

/-!
## Status indicators (`updateApiStatus` / `checkApiStatus`)

Both variants (chat.js lines 139-176 and 343-367) colour the two status
lights.  `status.gemini === 'available'` selects the class `available`,
otherwise `limited`; `status.databricks === 'available'` selects
`available`, otherwise `unavailable`.  A failed status call invokes
`updateApiStatus({ gemini: 'unavailable', databricks: 'unavailable' })`.
-/

inductive StatusClass where
  | available
  | limited
  | unavailable
deriving Repr, DecidableEq

/-- JS strict equality `v === 'available'` on a JSON-derived property
value (`none` = `undefined`): true exactly for the string `"available"`. -/
def isAvailValue : Option Json → Bool
  | some (Json.str s) => s = su "available"
  | _ => false

/-- `updateApiStatus(status)` given the looked-up `status.gemini` and
`status.databricks` property values (`none` = `undefined`). -/
def updateApiStatus (gemini databricks : Option Json) : StatusClass × StatusClass :=
  ((if isAvailValue gemini then StatusClass.available else StatusClass.limited),
   (if isAvailValue databricks then StatusClass.available else StatusClass.unavailable))

/-- `checkApiStatus()`: on a parsed JSON body apply `updateApiStatus` to
its two fields; on a failed fetch / non-OK response / JSON failure the
catch branch applies it to `{ gemini: 'unavailable', databricks:
'unavailable' }`. -/
def checkApiStatus (resp : Option Json) : StatusClass × StatusClass :=
  match resp with
  | some j => updateApiStatus (jsGet j (su "gemini")) (jsGet j (su "databricks"))
  | none => updateApiStatus (some (Json.str (su "unavailable"))) (some (Json.str (su "unavailable")))

/-!
## The submit handler

Both variants attach the same control flow to the form (chat.js lines
82-128 and 283-335): trim the input; return if empty; append the user
message; clear the input; disable the send button; create the bot message
element; `try` the round trip; on any failure set an inline error
message; `finally` re-enable the send button.
-/

/-- JS `String.prototype.trim` whitespace (WhiteSpace ∪ LineTerminator). -/
def isJsSpace (c : Nat) : Bool :=
  c = 0x09 || c = 0x0A || c = 0x0B || c = 0x0C || c = 0x0D || c = 0x20 ||
  c = 0xA0 || c = 0x1680 || (0x2000 ≤ c && c ≤ 0x200A) || c = 0x2028 ||
  c = 0x2029 || c = 0x202F || c = 0x205F || c = 0x3000 || c = 0xFEFF

def jsTrim (s : List Nat) : List Nat :=
  ((s.dropWhile isJsSpace).reverse.dropWhile isJsSpace).reverse

/-- How one `/chat` round trip completes, as observed by the handler. -/
inductive FetchOutcome where
  | networkError
  | httpError
  | streamed (chunks : List (List Nat))
  | jsonBody (parsed : Option Json)

/-- Page state touched by the submit handler. -/
structure UIState where
  messages : List (Bool × List Nat)
  inputValue : List Nat
  sendDisabled : Bool
deriving Repr, DecidableEq

/-- Result of one submit: the final page state and whether a `POST /chat`
request was issued. -/
structure SubmitResult where
  state : UIState
  requested : Bool
deriving Repr, DecidableEq

def connectionErrorV1 : List Nat :=
  su "<strong>Error:</strong> No se pudo conectar con el servidor. Por favor, intenta de nuevo."

/-- `'<strong>Error:</strong> ' + (data.error || 'Respuesta desconocida del servidor.')` -/
def unknownReplyV1 (data : Json) : List Nat :=
  su "<strong>Error:</strong> " ++
    (match jsGet data (su "error") with
     | some e => if jsTruthy e then jsToString e else su "Respuesta desconocida del servidor."
     | none => su "Respuesta desconocida del servidor.")

/-- The direct variant's submit handler (chat.js lines 82-128). -/
def submitV1 (st : UIState) (outcome : FetchOutcome) : SubmitResult :=
  let message := jsTrim st.inputValue
  if message = [] then ⟨st, false⟩
  else
    -- addMessage(message, 'user'); input cleared; send disabled;
    -- bot element created; then try / catch / finally.
    let botContent : List Nat :=
      match outcome with
      | FetchOutcome.networkError => connectionErrorV1
      | FetchOutcome.httpError => connectionErrorV1
      | FetchOutcome.streamed chunks => (handleStreamedResponseV1 chunks).content
      | FetchOutcome.jsonBody none => connectionErrorV1
      | FetchOutcome.jsonBody (some data) =>
        match jsGet data (su "reply") with
        | some r => if jsTruthy r then jsToString r else unknownReplyV1 data
        | none => unknownReplyV1 data
    -- finally: sendButton.disabled = false
    ⟨⟨st.messages ++ [(true, message), (false, botContent)], [], false⟩, true⟩

/-- `data.reply || `<strong>Error:</strong> ${data.error || 'Respuesta
desconocida.'}`` of the typewriter variant, as a string. -/
def replyOrErrorV2 (data : Json) : List Nat :=
  match jsGet data (su "reply") with
  | some r =>
    if jsTruthy r then jsToString r
    else
      su "<strong>Error:</strong> " ++
        (match jsGet data (su "error") with
         | some e => if jsTruthy e then jsToString e else su "Respuesta desconocida."
         | none => su "Respuesta desconocida.")
  | none =>
    su "<strong>Error:</strong> " ++
      (match jsGet data (su "error") with
       | some e => if jsTruthy e then jsToString e else su "Respuesta desconocida."
       | none => su "Respuesta desconocida.")

def connectionErrorV2 : List Nat :=
  su "<strong>Error:</strong> No se pudo conectar con el servidor."

/-- The typewriter variant's submit handler (chat.js lines 283-335); every
reply path goes through `typewriterEffect` into the bot element. -/
def submitV2 (st : UIState) (outcome : FetchOutcome) : SubmitResult :=
  let message := jsTrim st.inputValue
  if message = [] then ⟨st, false⟩
  else
    let botContent : List Nat :=
      match outcome with
      | FetchOutcome.networkError => typewriterFinal [] connectionErrorV2
      | FetchOutcome.httpError => typewriterFinal [] connectionErrorV2
      | FetchOutcome.streamed chunks =>
        typewriterFinal [] (handleStreamedResponseV2 chunks).fullText
      | FetchOutcome.jsonBody none => typewriterFinal [] connectionErrorV2
      | FetchOutcome.jsonBody (some data) => typewriterFinal [] (replyOrErrorV2 data)
    ⟨⟨st.messages ++ [(true, message), (false, botContent)], [], false⟩, true⟩

/-!
## Normal form of the reader

The central fact behind the testable properties: running the read loop
over any chunk sequence is equivalent to decoding the concatenated bytes,
splitting the whole text on `"\n\n"`, dropping the piece after the last
separator, and emitting the fragments of the complete records in order.
-/

theorem getLastD_irrel {α : Type} (l : List α) (d d' : α) (h : l ≠ []) :
    l.getLastD d = l.getLastD d' := by
  cases l with
  | nil => exact absurd rfl h
  | cons a l => rfl

theorem getLastD_append_ne {α : Type} (A : List α) (X : List α) (d : α) (h : X ≠ []) :
    (A ++ X).getLastD d = X.getLastD d := by
  rw [List.getLastD_eq_getLast?, List.getLastD_eq_getLast?,
    List.getLast?_append_of_ne_nil A h]

theorem hasNN_of_splitNN_single (s p : List Nat) (h : splitNN s = [p]) :
    hasNN s = false := by
  induction s using splitNN.induct generalizing p with
  | case1 c d rest hcd ih =>
    rw [splitNN, if_pos hcd] at h
    have hr : splitNN rest = [] := by
      cases hr : splitNN rest with
      | nil => rfl
      | cons q qs => rw [hr] at h; simp at h
    exact absurd hr (splitNN_ne_nil rest)
  | case2 c d rest hcd hnil ih =>
    exact absurd hnil (splitNN_ne_nil (d :: rest))
  | case3 c d rest hcd q qs hin ih =>
    have hs : splitNN (c :: d :: rest) = (c :: q) :: qs := by
      rw [splitNN, if_neg hcd, hin]
    rw [hs] at h
    cases qs with
    | nil =>
      have h2 : hasNN (d :: rest) = false := ih q hin
      have h3 : (c == nlU && d == nlU) = false := by
        by_cases h1 : c = nlU
        · by_cases h2' : d = nlU
          · exact absurd ⟨h1, h2'⟩ hcd
          · simp [h2']
        · simp [h1]
      rw [hasNN, h2, h3]
      rfl
    | cons r rs => simp at h
  | case4 c => rfl
  | case5 => rfl

/-- The piece after the last separator never contains a separator. -/
theorem hasNN_lastPart (s : List Nat) : hasNN ((splitNN s).getLastD []) = false := by
  induction s using splitNN.induct with
  | case1 c d rest hcd ih =>
    rw [splitNN, if_pos hcd]
    obtain ⟨q, qs, hq⟩ : ∃ q qs, splitNN rest = q :: qs := by
      cases hr : splitNN rest with
      | nil => exact absurd hr (splitNN_ne_nil rest)
      | cons q qs => exact ⟨q, qs, rfl⟩
    rw [hq] at ih ⊢
    show hasNN ((q :: qs).getLastD []) = false
    exact ih
  | case2 c d rest hcd hnil ih =>
    exact absurd hnil (splitNN_ne_nil (d :: rest))
  | case3 c d rest hcd q qs hin ih =>
    rw [splitNN, if_neg hcd, hin]
    cases qs with
    | nil =>
      have hs : splitNN (c :: d :: rest) = [c :: q] := by
        rw [splitNN, if_neg hcd, hin]
      have hq : q = d :: rest := splitNN_eq_single _ _ hin
      have h1 := hasNN_of_splitNN_single _ _ hs
      subst hq
      show hasNN (c :: d :: rest) = false
      exact h1
    | cons r rs =>
      rw [hin] at ih
      have h1 : ((c :: q) :: r :: rs).getLastD ([] : List Nat) = (r :: rs).getLastD [] :=
        getLastD_append_ne [c :: q] (r :: rs) [] (by simp)
      have h2 : ((q :: r :: rs).getLastD ([] : List Nat)) = (r :: rs).getLastD [] :=
        getLastD_append_ne [q] (r :: rs) [] (by simp)
      rw [h1, ← h2]
      exact ih
  | case4 c => rfl
  | case5 => rfl

theorem renderFrags_append (a b : List Json) :
    renderFrags (a ++ b) = renderFrags a ++ renderFrags b := by
  simp [renderFrags]

/-- The SSE buffer loop over a sequence of decoded text chunks, starting
from buffer `p.1` with already emitted fragments `p.2`. -/
def sseRunFrom (p : List Nat × List Json) (tcs : List (List Nat)) : List Nat × List Json :=
  tcs.foldl (fun acc t => let s := sseStep acc.1 t; (s.1, acc.2 ++ s.2)) p

/-- The SSE buffer loop from the initial empty buffer: final buffer and
all emitted fragments. -/
def sseRun (tcs : List (List Nat)) : List Nat × List Json :=
  sseRunFrom ([], []) tcs

theorem sseRunFrom_eq (tcs : List (List Nat)) :
    ∀ (buf : List Nat) (fr : List Json), hasNN buf = false →
    sseRunFrom (buf, fr) tcs =
      ((splitNN (buf ++ tcs.flatten)).getLastD [],
       fr ++ (splitNN (buf ++ tcs.flatten)).dropLast.filterMap recordFragment) := by
  induction tcs with
  | nil =>
    intro buf fr hbuf
    simp [sseRunFrom, splitNN_of_not_hasNN _ hbuf]
  | cons t tcs ih =>
    intro buf fr hbuf
    have hstep : sseRunFrom (buf, fr) (t :: tcs) =
        sseRunFrom ((splitNN (buf ++ t)).getLastD [],
          fr ++ (splitNN (buf ++ t)).dropLast.filterMap recordFragment) tcs := by
      simp [sseRunFrom, sseStep]
    have hb1 : hasNN ((splitNN (buf ++ t)).getLastD []) = false := hasNN_lastPart _
    rw [hstep, ih _ _ hb1]
    have hflat : buf ++ (t :: tcs).flatten = (buf ++ t) ++ tcs.flatten := by
      simp [List.flatten_cons]
    rw [hflat, splitNN_append (buf ++ t) tcs.flatten]
    have hne : splitNN ((splitNN (buf ++ t)).getLastD [] ++ tcs.flatten) ≠ [] :=
      splitNN_ne_nil _
    rw [getLastD_append_ne _ _ _ hne, List.dropLast_append_of_ne_nil _ hne,
      List.filterMap_append]
    simp [List.append_assoc]

theorem sseRun_eq (tcs : List (List Nat)) :
    sseRun tcs =
      ((splitNN tcs.flatten).getLastD [],
       (splitNN tcs.flatten).dropLast.filterMap recordFragment) := by
  have := sseRunFrom_eq tcs [] [] rfl
  simpa [sseRun] using this

theorem streamFoldV1_eq (chunks : List (List Nat)) :
    ∀ (d : DecState) (buf ct : List Nat) (fr : List Json), hasNN buf = false →
    List.foldl handleChunkV1 ⟨d, buf, ct, fr⟩ chunks =
      ⟨(decodeBytes d chunks.flatten).1,
       (splitNN (buf ++ (decodeBytes d chunks.flatten).2)).getLastD [],
       ct ++ renderFrags
         ((splitNN (buf ++ (decodeBytes d chunks.flatten).2)).dropLast.filterMap recordFragment),
       fr ++ (splitNN (buf ++ (decodeBytes d chunks.flatten).2)).dropLast.filterMap
         recordFragment⟩ := by
  induction chunks with
  | nil =>
    intro d buf ct fr hbuf
    simp [decodeBytes, splitNN_of_not_hasNN _ hbuf, renderFrags]
  | cons c cs ih =>
    intro d buf ct fr hbuf
    have hstep : List.foldl handleChunkV1 ⟨d, buf, ct, fr⟩ (c :: cs) =
        List.foldl handleChunkV1
          ⟨(decodeBytes d c).1,
           (splitNN (buf ++ (decodeBytes d c).2)).getLastD [],
           ct ++ renderFrags
             ((splitNN (buf ++ (decodeBytes d c).2)).dropLast.filterMap recordFragment),
           fr ++ (splitNN (buf ++ (decodeBytes d c).2)).dropLast.filterMap recordFragment⟩
          cs := by
      simp [handleChunkV1, sseStep]
    rw [hstep, ih _ _ _ _ (hasNN_lastPart _)]
    have hdec : decodeBytes d (c :: cs).flatten =
        ((decodeBytes (decodeBytes d c).1 cs.flatten).1,
         (decodeBytes d c).2 ++ (decodeBytes (decodeBytes d c).1 cs.flatten).2) := by
      rw [List.flatten_cons, decodeBytes_append]
    rw [hdec]
    have hsplit : splitNN (buf ++ ((decodeBytes d c).2 ++
        (decodeBytes (decodeBytes d c).1 cs.flatten).2)) =
        (splitNN (buf ++ (decodeBytes d c).2)).dropLast ++
          splitNN ((splitNN (buf ++ (decodeBytes d c).2)).getLastD [] ++
            (decodeBytes (decodeBytes d c).1 cs.flatten).2) := by
      rw [← List.append_assoc, splitNN_append]
    rw [hsplit]
    have hne : splitNN ((splitNN (buf ++ (decodeBytes d c).2)).getLastD [] ++
        (decodeBytes (decodeBytes d c).1 cs.flatten).2) ≠ [] := splitNN_ne_nil _
    rw [getLastD_append_ne _ _ _ hne, List.dropLast_append_of_ne_nil _ hne,
      List.filterMap_append, renderFrags_append]
    simp [List.append_assoc]

theorem streamFoldV2_eq (chunks : List (List Nat)) :
    ∀ (d : DecState) (buf ft : List Nat), hasNN buf = false →
    List.foldl handleChunkV2 ⟨d, buf, ft⟩ chunks =
      ⟨(decodeBytes d chunks.flatten).1,
       (splitNN (buf ++ (decodeBytes d chunks.flatten).2)).getLastD [],
       ft ++ renderFrags
         ((splitNN (buf ++ (decodeBytes d chunks.flatten).2)).dropLast.filterMap
           recordFragment)⟩ := by
  induction chunks with
  | nil =>
    intro d buf ft hbuf
    simp [decodeBytes, splitNN_of_not_hasNN _ hbuf, renderFrags]
  | cons c cs ih =>
    intro d buf ft hbuf
    have hstep : List.foldl handleChunkV2 ⟨d, buf, ft⟩ (c :: cs) =
        List.foldl handleChunkV2
          ⟨(decodeBytes d c).1,
           (splitNN (buf ++ (decodeBytes d c).2)).getLastD [],
           ft ++ renderFrags
             ((splitNN (buf ++ (decodeBytes d c).2)).dropLast.filterMap recordFragment)⟩
          cs := by
      simp [handleChunkV2, sseStep]
    rw [hstep, ih _ _ _ (hasNN_lastPart _)]
    have hdec : decodeBytes d (c :: cs).flatten =
        ((decodeBytes (decodeBytes d c).1 cs.flatten).1,
         (decodeBytes d c).2 ++ (decodeBytes (decodeBytes d c).1 cs.flatten).2) := by
      rw [List.flatten_cons, decodeBytes_append]
    rw [hdec]
    have hsplit : splitNN (buf ++ ((decodeBytes d c).2 ++
        (decodeBytes (decodeBytes d c).1 cs.flatten).2)) =
        (splitNN (buf ++ (decodeBytes d c).2)).dropLast ++
          splitNN ((splitNN (buf ++ (decodeBytes d c).2)).getLastD [] ++
            (decodeBytes (decodeBytes d c).1 cs.flatten).2) := by
      rw [← List.append_assoc, splitNN_append]
    rw [hsplit]
    have hne : splitNN ((splitNN (buf ++ (decodeBytes d c).2)).getLastD [] ++
        (decodeBytes (decodeBytes d c).1 cs.flatten).2) ≠ [] := splitNN_ne_nil _
    rw [getLastD_append_ne _ _ _ hne, List.dropLast_append_of_ne_nil _ hne,
      List.filterMap_append, renderFrags_append]
    simp [List.append_assoc]

/-- Normal form of the direct variant of the reader. -/
theorem handleStreamedResponseV1_eq (chunks : List (List Nat)) :
    handleStreamedResponseV1 chunks =
      ⟨(decodeBytes decInit chunks.flatten).1,
       (splitNN (decodeBytes decInit chunks.flatten).2).getLastD [],
       renderFrags
         ((splitNN (decodeBytes decInit chunks.flatten).2).dropLast.filterMap recordFragment),
       (splitNN (decodeBytes decInit chunks.flatten).2).dropLast.filterMap recordFragment⟩ := by
  have := streamFoldV1_eq chunks decInit [] [] [] rfl
  simpa [handleStreamedResponseV1, streamInitV1] using this

/-- Normal form of the typewriter variant of the reader. -/
theorem handleStreamedResponseV2_eq (chunks : List (List Nat)) :
    handleStreamedResponseV2 chunks =
      ⟨(decodeBytes decInit chunks.flatten).1,
       (splitNN (decodeBytes decInit chunks.flatten).2).getLastD [],
       renderFrags
         ((splitNN (decodeBytes decInit chunks.flatten).2).dropLast.filterMap
           recordFragment)⟩ := by
  have := streamFoldV2_eq chunks decInit [] [] rfl
  simpa [handleStreamedResponseV2, streamInitV2] using this

theorem handleStreamedResponseV1_frags (chunks : List (List Nat)) :
    (handleStreamedResponseV1 chunks).frags =
      (splitNN (decodeBytes decInit chunks.flatten).2).dropLast.filterMap recordFragment := by
  rw [handleStreamedResponseV1_eq]

theorem typewriterSteps_eq_aux (text : List Nat) (k : Nat) :
    ∀ i, text.length - i = k → typewriterSteps text i = (text.drop i).map (fun c => [c]) := by
  induction k with
  | zero =>
    intro i hk
    rw [typewriterSteps, dif_neg (by omega), List.drop_eq_nil_of_le (by omega)]
    rfl
  | succ k ih =>
    intro i hk
    rw [typewriterSteps]
    by_cases h : i < text.length
    · rw [dif_pos h, ih (i + 1) (by omega), List.drop_eq_getElem_cons h]
      simp only [List.map_cons, List.get_eq_getElem]
    · rw [dif_neg h, List.drop_eq_nil_of_le (by omega)]
      rfl

theorem typewriterSteps_eq (text : List Nat) (i : Nat) :
    typewriterSteps text i = (text.drop i).map (fun c => [c]) :=
  typewriterSteps_eq_aux text (text.length - i) i rfl

theorem foldl_append_eq (l : List (List Nat)) :
    ∀ acc : List Nat, l.foldl (fun a e => a ++ e) acc = acc ++ l.flatten := by
  induction l with
  | nil => intro acc; simp
  | cons x xs ih => intro acc; simp [ih, List.append_assoc]

theorem typewriterFinal_eq (prev text : List Nat) : typewriterFinal prev text = text := by
  rw [typewriterFinal, typewriterSteps_eq]
  rw [foldl_append_eq]
  simp
  induction text with
  | nil => rfl
  | cons c cs ih => simp [ih]

/-!
## Claims
-/

/-- C1: for every total byte stream and any two ways of partitioning it
into chunk sequences fed to the streamed-response reader, the sequence
(set and order) of emitted text fragments is identical in both runs,
including when a boundary falls mid-record or mid-character. -/
theorem c1_chunk_boundary_independence (cs1 cs2 : List (List Nat))
    (h : cs1.flatten = cs2.flatten) :
    (handleStreamedResponseV1 cs1).frags = (handleStreamedResponseV1 cs2).frags := by
  rw [handleStreamedResponseV1_frags, handleStreamedResponseV1_frags, h]

/-- Bytes of `data:{"text":"é"}\n\ndata:{"text":"!"}\n\n` (UTF-8, é = C3 A9)
delivered as a single chunk. -/
def c1bytesA : List (List Nat) :=
  [su "data:\x7b\"text\":\"" ++ [0xC3, 0xA9] ++ su "\"\x7d" ++ [nlU, nlU] ++
    su "data:\x7b\"text\":\"!\"\x7d" ++ [nlU, nlU]]

/-- The same bytes delivered in three chunks, with boundaries falling in
the middle of the two-byte character and in the middle of the record
separator. -/
def c1bytesB : List (List Nat) :=
  [su "data:\x7b\"text\":\"" ++ [0xC3],
   [0xA9] ++ su "\"\x7d" ++ [nlU],
   [nlU] ++ su "data:\x7b\"text\":\"!\"\x7d" ++ [nlU, nlU]]

theorem c1_witness :
    c1bytesA.flatten = c1bytesB.flatten ∧
    (handleStreamedResponseV1 c1bytesA).frags = (handleStreamedResponseV1 c1bytesB).frags :=
  ⟨rfl, c1_chunk_boundary_independence c1bytesA c1bytesB rfl⟩

/-- C2: the reader appends decoded text to its buffer, splits on the
double-newline separator, keeps the last piece as the new buffer, and a
record split across chunks yields exactly one emitted fragment: whenever
the whole decoded stream is one complete record followed by the
separator, any chunking of the bytes emits exactly that record's
fragment, once. -/
theorem c2_split_record_single_fragment (cs : List (List Nat)) (r : List Nat) (v : Json)
    (hsep : hasNN r = false) (hnl : r.getLast? ≠ some nlU)
    (hfrag : recordFragment r = some v)
    (htot : (decodeBytes decInit cs.flatten).2 = r ++ [nlU, nlU]) :
    (handleStreamedResponseV1 cs).frags = [v] := by
  rw [handleStreamedResponseV1_frags, htot, splitNN_record_sep r hsep hnl]
  simp [hfrag]

/-- The record `data:{"text":"Hi"}`. -/
def c2record : List Nat := su "data:\x7b\"text\":\"Hi\"\x7d"

/-- The record plus its separator split across three chunks, the first
boundary mid-record. -/
def c2chunks : List (List Nat) := [su "data:\x7b\"te", su "xt\":\"Hi\"\x7d", [nlU, nlU]]

theorem c2_witness :
    (hasNN c2record = false ∧ c2record.getLast? ≠ some nlU ∧
     recordFragment c2record = some (Json.str (su "Hi")) ∧
     (decodeBytes decInit c2chunks.flatten).2 = c2record ++ [nlU, nlU]) ∧
    (handleStreamedResponseV1 c2chunks).frags = [Json.str (su "Hi")] :=
  ⟨⟨rfl, by decide, rfl, rfl⟩,
   c2_split_record_single_fragment c2chunks c2record _ rfl (by decide) rfl rfl⟩

/-- C3: a record with the `data:` tag whose payload is not valid JSON is
discarded (emitting nothing) and the stream continues: the emitted
fragments are exactly those of the records before and after it. -/
theorem c3_malformed_record_skipped (cs rs1 rs2 : List (List Nat)) (bad : List Nat)
    (hrec : (splitNN (decodeBytes decInit cs.flatten).2).dropLast = rs1 ++ bad :: rs2)
    (htag : dataTagU.isPrefixOf bad = true)
    (hbad : parseJson (bad.drop 5) = none) :
    (handleStreamedResponseV1 cs).frags =
      rs1.filterMap recordFragment ++ rs2.filterMap recordFragment := by
  rw [handleStreamedResponseV1_frags, hrec, List.filterMap_append]
  have hnone : recordFragment bad = none := by
    simp [recordFragment, htag, hbad]
  simp [List.filterMap_cons, hnone]

/-- A stream with a malformed `data:` record followed by a valid one. -/
def c3chunks : List (List Nat) := [su "data:\x7boops\n\ndata:\x7b\"text\":\"ok\"\x7d\n\n"]

theorem c3_witness :
    ((splitNN (decodeBytes decInit c3chunks.flatten).2).dropLast =
      [] ++ su "data:\x7boops" :: [su "data:\x7b\"text\":\"ok\"\x7d"]) ∧
    dataTagU.isPrefixOf (su "data:\x7boops") = true ∧
    parseJson ((su "data:\x7boops").drop 5) = none ∧
    (handleStreamedResponseV1 c3chunks).frags =
      ([] : List (List Nat)).filterMap recordFragment ++
        [su "data:\x7b\"text\":\"ok\"\x7d"].filterMap recordFragment ∧
    (handleStreamedResponseV1 c3chunks).frags = [Json.str (su "ok")] :=
  ⟨rfl, rfl, rfl, c3_malformed_record_skipped c3chunks [] _ _ rfl rfl rfl, rfl⟩

/-- C4: when the source signals completion, unterminated trailing buffer
content is discarded: appending trailing bytes that do not complete a
record separator leaves the emitted fragments unchanged, whatever the
trailing content is (even a complete `data:` record with valid JSON). -/
theorem c4_trailing_buffer_discarded (cs : List (List Nat)) (trailing : List Nat)
    (h : hasNN ((splitNN (decodeBytes decInit cs.flatten).2).getLastD [] ++
          (decodeBytes (decodeBytes decInit cs.flatten).1 trailing).2) = false) :
    (handleStreamedResponseV1 (cs ++ [trailing])).frags =
      (handleStreamedResponseV1 cs).frags := by
  rw [handleStreamedResponseV1_frags, handleStreamedResponseV1_frags]
  have hflat : (cs ++ [trailing]).flatten = cs.flatten ++ trailing := by simp
  rw [hflat, decodeBytes_append, splitNN_append, splitNN_of_not_hasNN _ h,
    List.dropLast_append_of_ne_nil _ (by simp)]
  simp

/-- A complete, valid stream of one record. -/
def c4chunks : List (List Nat) := [su "data:\x7b\"text\":\"ok\"\x7d" ++ [nlU, nlU]]

/-- A full `data:` record with valid JSON, but no terminating separator. -/
def c4trailing : List Nat := su "data:\x7b\"text\":\"X\"\x7d"

theorem c4_witness :
    hasNN ((splitNN (decodeBytes decInit c4chunks.flatten).2).getLastD [] ++
      (decodeBytes (decodeBytes decInit c4chunks.flatten).1 c4trailing).2) = false ∧
    (handleStreamedResponseV1 (c4chunks ++ [c4trailing])).frags =
      (handleStreamedResponseV1 c4chunks).frags ∧
    recordFragment c4trailing = some (Json.str (su "X")) :=
  ⟨rfl, c4_trailing_buffer_discarded c4chunks c4trailing rfl, rfl⟩

/-- C5, counterexample: the claim says a record whose payload is a JSON
object with a `text` field present has that value emitted as a fragment;
but `if (data.text)` tests truthiness, so `data:{"text":false}` — whose
payload parses to an object with `text` present — emits nothing. -/
theorem c5_counterexample :
    parseJson ((su "data:\x7b\"text\":false\x7d").drop 5) =
      some (Json.obj [(textKeyU, Json.bool false)]) ∧
    jsGet (Json.obj [(textKeyU, Json.bool false)]) textKeyU = some (Json.bool false) ∧
    (handleStreamedResponseV1 [su "data:\x7b\"text\":false\x7d" ++ [nlU, nlU]]).frags = [] :=
  ⟨rfl, rfl, rfl⟩

/-- C5, amended: a complete record without the `data:` tag is ignored; a
record with the tag emits a fragment exactly when its payload parses as
JSON, reading `text` yields a value, and that value is truthy (so falsy
values `false`, `0`, `""`, `null` and absent fields emit nothing); and the
reader emits the fragments of the complete records in record order. -/
theorem c5_amended_fragment_condition :
    (∀ part : List Nat, dataTagU.isPrefixOf part = false → recordFragment part = none) ∧
    (∀ (part : List Nat) (v : Json), recordFragment part = some v ↔
      (dataTagU.isPrefixOf part = true ∧
       ∃ j, parseJson (part.drop 5) = some j ∧ jsGet j textKeyU = some v ∧
         jsTruthy v = true)) ∧
    (∀ cs : List (List Nat), (handleStreamedResponseV1 cs).frags =
      (splitNN (decodeBytes decInit cs.flatten).2).dropLast.filterMap recordFragment) := by
  refine ⟨?_, ?_, ?_⟩
  · intro part h
    simp [recordFragment, h]
  · intro part v
    constructor
    · intro h
      by_cases htag : dataTagU.isPrefixOf part = true
      · simp only [recordFragment, htag, if_true] at h
        refine ⟨htag, ?_⟩
        split at h
        · rename_i j hp
          split at h
          · rename_i t hg
            split at h
            · rename_i ht
              cases h
              exact ⟨j, hp, hg, ht⟩
            · exact absurd h (by simp)
          · exact absurd h (by simp)
        · exact absurd h (by simp)
      · simp only [Bool.not_eq_true] at htag
        simp [recordFragment, htag] at h
    · rintro ⟨htag, j, hp, hg, ht⟩
      simp [recordFragment, htag, hp, hg, ht]
  · exact handleStreamedResponseV1_frags

theorem c5_witness :
    recordFragment (su "event: ping") = none ∧
    recordFragment (su "data:\x7b\"text\":\"Hi\"\x7d") = some (Json.str (su "Hi")) :=
  ⟨c5_amended_fragment_condition.1 _ rfl,
   (c5_amended_fragment_condition.2.1 _ _).2
     ⟨rfl, Json.obj [(textKeyU, Json.str (su "Hi"))], rfl, rfl, rfl⟩⟩

/-- C6: the reveal sink emits exactly `N` single-character increments for
an input of length `N`, in input order; the target holds exactly the
input text when the effect resolves (the previous content having been
cleared); and on the empty string it resolves with zero emissions. -/
theorem c6_typewriter_emissions (text prev : List Nat) :
    (typewriterSteps text 0).length = text.length ∧
    typewriterSteps text 0 = text.map (fun c => [c]) ∧
    typewriterFinal prev text = text ∧
    typewriterSteps ([] : List Nat) 0 = [] := by
  refine ⟨?_, ?_, typewriterFinal_eq prev text, by simp [typewriterSteps_eq]⟩
  · rw [typewriterSteps_eq]
    simp
  · rw [typewriterSteps_eq]
    simp

/-- C7, counterexample: the claim maps a missing field (e.g. input `{}`)
or a failed fetch to a default "unavailable" indicator for all services,
but the gemini indicator's default state is `limited`, not `unavailable`,
in both cases. -/
theorem c7_counterexample :
    checkApiStatus (some (Json.obj [])) = (StatusClass.limited, StatusClass.unavailable) ∧
    checkApiStatus none = (StatusClass.limited, StatusClass.unavailable) ∧
    StatusClass.limited ≠ StatusClass.unavailable :=
  ⟨rfl, rfl, by decide⟩

theorem isAvailValue_iff (g : Option Json) :
    isAvailValue g = true ↔ g = some (Json.str (su "available")) := by
  cases g with
  | none => simp [isAvailValue]
  | some j => cases j <;> simp [isAvailValue]

/-- C7, amended: an indicator is set to `available` exactly when its field
is the string `"available"`; otherwise the gemini indicator takes its
default `limited` state and the databricks indicator its default
`unavailable` state — in particular on input `{}` and on a failed fetch. -/
theorem c7_amended_status_mapping :
    (∀ g d, (updateApiStatus g d).1 = StatusClass.available ↔
      g = some (Json.str (su "available"))) ∧
    (∀ g d, (updateApiStatus g d).2 = StatusClass.available ↔
      d = some (Json.str (su "available"))) ∧
    (∀ g d, (updateApiStatus g d).1 = StatusClass.available ∨
      (updateApiStatus g d).1 = StatusClass.limited) ∧
    (∀ g d, (updateApiStatus g d).2 = StatusClass.available ∨
      (updateApiStatus g d).2 = StatusClass.unavailable) ∧
    checkApiStatus (some (Json.obj [])) = (StatusClass.limited, StatusClass.unavailable) ∧
    checkApiStatus none = (StatusClass.limited, StatusClass.unavailable) := by
  refine ⟨?_, ?_, ?_, ?_, rfl, rfl⟩
  · intro g d
    rw [← isAvailValue_iff]
    unfold updateApiStatus
    by_cases h : isAvailValue g = true
    · simp [h]
    · simp only [Bool.not_eq_true] at h
      simp [h]
  · intro g d
    rw [← isAvailValue_iff]
    unfold updateApiStatus
    by_cases h : isAvailValue d = true
    · simp [h]
    · simp only [Bool.not_eq_true] at h
      simp [h]
  · intro g d
    unfold updateApiStatus
    by_cases h : isAvailValue g = true
    · simp [h]
    · simp only [Bool.not_eq_true] at h
      simp [h]
  · intro g d
    unfold updateApiStatus
    by_cases h : isAvailValue d = true
    · simp [h]
    · simp only [Bool.not_eq_true] at h
      simp [h]

theorem c7_witness :
    (updateApiStatus (some (Json.str (su "available")))
      (some (Json.str (su "available")))).1 = StatusClass.available ∧
    (updateApiStatus (some (Json.str (su "available")))
      (some (Json.str (su "available")))).2 = StatusClass.available :=
  ⟨(c7_amended_status_mapping.1 _ _).2 rfl,
   (c7_amended_status_mapping.2.1 _ _).2 rfl⟩

/-- C8: for every submit of a non-empty message, on every completion path
of the round trip — streamed success, whole-JSON success, non-OK HTTP
status, network/read failure, or JSON parse failure — the send control
ends re-enabled in both variants (the `finally` cleanup always runs). -/
theorem c8_send_reenabled (st : UIState) (outcome : FetchOutcome)
    (h : jsTrim st.inputValue ≠ []) :
    (submitV1 st outcome).state.sendDisabled = false ∧
    (submitV2 st outcome).state.sendDisabled = false := by
  constructor
  · simp [submitV1, h]
  · simp [submitV2, h]

theorem c8_witness :
    jsTrim (su "hola") ≠ [] ∧
    ((submitV1 ⟨[], su "hola", false⟩ FetchOutcome.networkError).state.sendDisabled = false ∧
     (submitV2 ⟨[], su "hola", false⟩ FetchOutcome.networkError).state.sendDisabled = false) :=
  ⟨by decide, c8_send_reenabled ⟨[], su "hola", false⟩ FetchOutcome.networkError (by decide)⟩

/-- C9: the two chat.js variants are equivalent up to reveal behavior: for
every chunk sequence, the text the direct variant accumulates in the bot
message equals the `fullText` the typewriter variant accumulates, and
revealing that text leaves exactly it in the target — both variants end
with the same final reply text for the same byte stream. -/
theorem c9_variant_equivalence (chunks : List (List Nat)) :
    (handleStreamedResponseV1 chunks).content =
      (handleStreamedResponseV2 chunks).fullText ∧
    typewriterFinal [] ((handleStreamedResponseV2 chunks).fullText) =
      (handleStreamedResponseV2 chunks).fullText := by
  constructor
  · rw [handleStreamedResponseV1_eq, handleStreamedResponseV2_eq]
  · exact typewriterFinal_eq _ _

/-- C10: if the input message is empty after trimming, the submit handler
of either variant is a no-op: the page state is unchanged (no message
elements, send control untouched, input kept) and no POST request is
issued. -/
theorem c10_empty_submit_noop (st : UIState) (outcome : FetchOutcome)
    (h : jsTrim st.inputValue = []) :
    submitV1 st outcome = ⟨st, false⟩ ∧ submitV2 st outcome = ⟨st, false⟩ := by
  constructor
  · simp [submitV1, h]
  · simp [submitV2, h]

theorem c10_witness :
    jsTrim (su "   ") = [] ∧
    (submitV1 ⟨[(true, su "old")], su "   ", false⟩ FetchOutcome.httpError =
        ⟨⟨[(true, su "old")], su "   ", false⟩, false⟩ ∧
     submitV2 ⟨[(true, su "old")], su "   ", false⟩ FetchOutcome.httpError =
        ⟨⟨[(true, su "old")], su "   ", false⟩, false⟩) :=
  ⟨rfl, c10_empty_submit_noop ⟨[(true, su "old")], su "   ", false⟩ FetchOutcome.httpError rfl⟩

end DataGpt
